import Mathlib

/-!
Verification of the rct runtime core against its specification.

We shallow-embed the parts of the source that the claims are about:

* `Connection` framing (`src/unnamed/part_000`): the inbound buffer list,
  `bufferSize`, `bufferRead`, the decode loop of `Connection::onDataAvailable`,
  `Connection::sendData` and `Connection::onDataWritten`.
* `Process` supervision (`src/rct/Process.cpp`): `ProcessThread::run`,
  `Process::finish`, `Process::handleOutput`, `Process::handleInput`,
  `Process::write`, `Process::findCommand`, `Process::readAllStdOut` /
  `Process::readAllStdErr`, and the pid lifecycle.

Bytes are modelled as `Nat` values; byte buffers as `List Nat`.
-/

namespace Rct

/-! ### Connection framing -/

/-- Function `bufferSize` from `src/unnamed/part_000`: the total number of queued
inbound bytes, summed over the buffer list. -/
def bufferSize (buffers : List (List Nat)) : Nat :=
  (buffers.map List.length).sum

/-- Function `bufferRead` from `src/unnamed/part_000`: read up to `size` bytes from the
front of the buffer list, erasing fully consumed buffers and shrinking a
partially consumed front buffer in place.  Returns the bytes read and the
remaining buffer list. -/
def bufferRead (buffers : List (List Nat)) (size : Nat) :
    List Nat × List (List Nat) :=
  match buffers, size with
  | buffers, 0 => ([], buffers)
  | [], _ + 1 => ([], [])
  | b :: rest, n + 1 =>
    if b.length ≤ n + 1 then
      let r := bufferRead rest (n + 1 - b.length)
      (b ++ r.1, r.2)
    else
      (b.take (n + 1), b.drop (n + 1) :: rest)

/-- The flattened content of the inbound buffer list, in stream order. -/
def flat (buffers : List (List Nat)) : List Nat := buffers.flatten

/-- Modelled from the spec: the `Serializer` / `Deserializer` classes are not
under `src/`; the spec fixes the header as a little-endian u32 length, so the
header decoder reads four bytes least-significant first. -/
def leU32 (b : List Nat) : Nat :=
  match b with
  | b0 :: b1 :: b2 :: b3 :: _ => b0 + 256 * (b1 + 256 * (b2 + 256 * b3))
  | _ => 0

/-- Events a `Connection` can deliver while decoding the inbound stream. -/
inductive ConnEvent where
  | finished
  | newMessage (payload : List Nat)
  deriving DecidableEq, Repr

/-- Modelled from the spec: `Messages::create` is not under `src/`; the spec
says the first payload byte is the u8 message id, and a distinguished id
(`FinishMessage::MessageId`, written `finishId` here) signals graceful close.
An empty payload carries no id and decodes to no message. -/
def deliver (finishId : Nat) (payload : List Nat) : Option ConnEvent :=
  match payload.head? with
  | none => none
  | some id => some (if id = finishId then ConnEvent.finished
                     else ConnEvent.newMessage payload)

/-- Decode state of a `Connection`: the queued inbound buffers (`mBuffers`) and
the declared length of the in-progress frame (`mPendingRead`, `0` when awaiting
a header). -/
structure ConnState where
  buffers : List (List Nat)
  pendingRead : Nat
  deriving DecidableEq, Repr

/-- One iteration of the `while (true)` loop of `Connection::onDataAvailable`
(`src/unnamed/part_000`).  Returns the state after the iteration, the event
delivered by the iteration (if any), and whether the loop continues
(`false` means the iteration hit a `break`). -/
def connStep (finishId : Nat) (s : ConnState) : ConnState × Option ConnEvent × Bool :=
  let available := bufferSize s.buffers
  if available = 0 then (s, none, false)
  else if s.pendingRead = 0 then
    if available < 4 then (s, none, false)
    else
      let r := bufferRead s.buffers 4
      let n := leU32 r.1
      if available - 4 < n then (⟨r.2, n⟩, none, false)
      else
        let body := bufferRead r.2 n
        (⟨body.2, 0⟩, deliver finishId body.1, true)
  else
    if available < s.pendingRead then (s, none, false)
    else
      let body := bufferRead s.buffers s.pendingRead
      (⟨body.2, 0⟩, deliver finishId body.1, true)

/-- The full decode loop of `Connection::onDataAvailable`, driven by fuel (the
loop terminates because every continuing iteration consumes at least one queued
byte).  Returns the final state and the events delivered, in order. -/
def connRun (finishId : Nat) : Nat → ConnState → ConnState × List ConnEvent
  | 0, s => (s, [])
  | fuel + 1, s =>
    match connStep finishId s with
    | (s', ev, true) =>
        let r := connRun finishId fuel s'
        (r.1, ev.toList ++ r.2)
    | (s', _, false) => (s', [])

/-- Method `Connection::sendData` (`src/unnamed/part_000`).  If the socket is not
connected it logs an error and returns `false` without touching
`mPendingWrite`.  Otherwise it serializes `data = id :: message` and a 4-byte
little-endian header holding `data.size()`, adds `header.size() + data.size()`
to `mPendingWrite`, and hands both buffers to the socket.  `SocketClient` is
not under `src/`; its `write` is modelled from the spec as queueing the bytes
and acknowledging them later through the `bytesWritten` signal, so a send on a
connected socket succeeds.  Returns the new `mPendingWrite` and the success
flag. -/
def sendData (connected : Bool) (pendingWrite : Nat) (id : Nat)
    (message : List Nat) : Nat × Bool :=
  if !connected then (pendingWrite, false)
  else (pendingWrite + (4 + (id :: message).length), true)

/-- Method `Connection::onDataWritten` (`src/unnamed/part_000`): subtract the
acknowledged byte count from `mPendingWrite` (the source asserts
`mPendingWrite >= bytes`); emit `SendFinished` exactly when the counter has
become zero.  Returns the new `mPendingWrite` and whether `SendFinished`
fired. -/
def onDataWritten (pendingWrite : Nat) (bytes : Nat) : Nat × Bool :=
  (pendingWrite - bytes, pendingWrite - bytes == 0)

/-- The operations that touch `mPendingWrite`: an accepted `sendData` call and
a write-acknowledged notification. -/
inductive ConnOp where
  | send (id : Nat) (message : List Nat)
  | ack (bytes : Nat)
  deriving DecidableEq, Repr

/-- Bytes queued by an operation: header plus body for a send, nothing for an
acknowledgement. -/
def sentBytes : ConnOp → Nat
  | ConnOp.send id message => 4 + (id :: message).length
  | ConnOp.ack _ => 0

/-- Bytes acknowledged by an operation. -/
def ackedBytes : ConnOp → Nat
  | ConnOp.send _ _ => 0
  | ConnOp.ack b => b

/-- Run a sequence of send/ack operations against `mPendingWrite`, using
`sendData` (on a connected socket) and `onDataWritten`. -/
def runConn (pendingWrite : Nat) : List ConnOp → Nat
  | [] => pendingWrite
  | ConnOp.send id message :: ops =>
      runConn (sendData true pendingWrite id message).1 ops
  | ConnOp.ack b :: ops => runConn (onDataWritten pendingWrite b).1 ops

/-- Validity of an operation sequence: every acknowledgement is for at most
the currently outstanding byte count (the assertion in
`Connection::onDataWritten`). -/
def validOps (pendingWrite : Nat) : List ConnOp → Prop
  | [] => True
  | ConnOp.send id message :: ops =>
      validOps (sendData true pendingWrite id message).1 ops
  | ConnOp.ack b :: ops => b ≤ pendingWrite ∧ validOps (pendingWrite - b) ops

/-! ### Process supervisor thread -/

/-- Outcome of `::waitpid(pid, &ret, WNOHANG)` for one registry entry, as
dispatched by the `switch` in `ProcessThread::run`: `noChange` covers the
return values `0` and `-1` (no matching child ready), `exited s` a normal exit
with status `s` (`WIFEXITED`), `other` a reaped child that did not exit
normally. -/
inductive WaitStatus where
  | noChange
  | exited (status : Nat)
  | other
  deriving DecidableEq, Repr

/-- The exit code `ProcessThread::run` reports for a reaped entry:
`WEXITSTATUS` when `WIFEXITED`, `-1` otherwise; `none` when the entry is not
reaped. -/
def reapCode : WaitStatus → Option Int
  | WaitStatus.noChange => none
  | WaitStatus.exited s => some (Int.ofNat s)
  | WaitStatus.other => some (-1)

/-- Observable actions of the supervisor thread while it walks the registry. -/
inductive ThreadAct where
  | waitpidCall (pid : Nat)
  | unlockAct
  | finishCall (pid : Nat) (code : Int)
  | lockAct
  deriving DecidableEq, Repr

/-- The registry walk inside `ProcessThread::run` (`src/rct/Process.cpp`): for
each live pid, call `waitpid(pid, WNOHANG)`; on no match keep the entry and
advance; otherwise erase the entry, unlock the registry mutex, call
`process.finish(code)`, and re-lock.  The registry is the pid-keyed
`std::map`, modelled as its ordered list of pids.  Returns the surviving
registry and the action trace. -/
def reapLoop (wait : Nat → WaitStatus) : List Nat → List Nat × List ThreadAct
  | [] => ([], [])
  | pid :: rest =>
    match reapCode (wait pid) with
    | none =>
        let r := reapLoop wait rest
        (pid :: r.1, ThreadAct.waitpidCall pid :: r.2)
    | some code =>
        let r := reapLoop wait rest
        (r.1, ThreadAct.waitpidCall pid :: ThreadAct.unlockAct ::
              ThreadAct.finishCall pid code :: ThreadAct.lockAct :: r.2)

/-- What the supervisor thread does with one byte read from the signal pipe. -/
inductive ThreadStep where
  | exitThread
  | continueThread (registry : List Nat) (acts : List ThreadAct)
  deriving DecidableEq, Repr

/-- One iteration of the read loop in `ProcessThread::run`: an `'s'` byte
breaks out of the loop (the thread exits); any other byte (only `'c'` is ever
written) triggers the registry walk. -/
def handleSignalByte (wait : Nat → WaitStatus) (registry : List Nat)
    (ch : Char) : ThreadStep :=
  if ch = 's' then ThreadStep.exitThread
  else
    let r := reapLoop wait registry
    ThreadStep.continueThread r.1 r.2

/-! ### Process::finish -/

/-- Process mode (`mMode`): `Sync` for `exec`, `Async` for `start`. -/
inductive PMode where
  | Sync
  | Async
  deriving DecidableEq, Repr

/-- Observable actions of `Process::finish`. -/
inductive FinishAct where
  | lockMutex
  | unlockMutex
  | setPid (pid : Int)
  | setReturn (code : Int)
  | clearStdInBuffer
  | closeStdInAct
  | drainStdOut
  | drainStdErr
  | closeStdOutAct
  | closeStdErrAct
  | writeSyncPipe (bytes : Nat)
  | closeSyncPipe
  | emitFinished
  deriving DecidableEq, Repr

/-- The action sequence of `Process::finish(returnCode)` (`src/rct/Process.cpp`):
under the process mutex set `mPid = -1`, record `mReturn`, clear the stdin
queue and close stdin; in `Async` mode drain the remaining stdout/stderr and
close both; in `Sync` mode write the single byte `'q'` to the sync pipe and
close its write end; then release the mutex, and in `Async` mode emit the
`mFinished` signal. -/
def finishTrace (mode : PMode) (code : Int) : List FinishAct :=
  [FinishAct.lockMutex, FinishAct.setPid (-1), FinishAct.setReturn code,
   FinishAct.clearStdInBuffer, FinishAct.closeStdInAct] ++
  (match mode with
   | PMode.Async => [FinishAct.drainStdOut, FinishAct.drainStdErr,
                     FinishAct.closeStdOutAct, FinishAct.closeStdErrAct]
   | PMode.Sync => [FinishAct.writeSyncPipe 1, FinishAct.closeSyncPipe]) ++
  [FinishAct.unlockMutex] ++
  (match mode with
   | PMode.Async => [FinishAct.emitFinished]
   | PMode.Sync => [])

/-! ### Process::handleOutput -/

/-- The 16 MiB bound on a per-stream output buffer (`MaxSize` in
`Process::handleOutput`). -/
def MaxSize : Nat := 1024 * 1024 * 16

/-- The read chunk size of `Process::handleOutput` (`BufSize`): a single
`::read` returns at most 1024 bytes. -/
def BufSize : Nat := 1024

/-- One append step of `Process::handleOutput` (`src/rct/Process.cpp`): a
chunk of freshly read bytes is appended to the stream buffer.  If appending
would exceed `MaxSize`, and even discarding the consumed prefix (before
`index`) would leave it over the bound, the whole buffer is cleared and the
data drop is logged; otherwise the consumed prefix is compacted away first.
Returns the new buffer, the new read index, and whether data was dropped. -/
def handleOutputAppend (buffer : List Nat) (index : Nat) (chunk : List Nat) :
    List Nat × Nat × Bool :=
  let sz := buffer.length
  let r := chunk.length
  if sz + r > MaxSize then
    if sz + r - index > MaxSize then
      (chunk, 0, true)
    else
      (buffer.drop index ++ chunk, 0, false)
  else
    (buffer ++ chunk, index, false)

/-- The read loop of `Process::handleOutput`: successive chunks (each of at
most `BufSize` bytes) are appended until `::read` reports no more data. -/
def handleOutputRun (buffer : List Nat) (index : Nat) :
    List (List Nat) → List Nat × Nat
  | [] => (buffer, index)
  | c :: cs =>
      let r := handleOutputAppend buffer index c
      handleOutputRun r.1 r.2.1 cs

/-! ### Process::write and Process::handleInput -/

/-- Outcome of one `::write` on the stdin pipe: `eagain` for a `-1` return
(`EAGAIN`), `wrote n` for a successful write of `n` bytes. -/
inductive WriteResult where
  | eagain
  | wrote (n : Nat)
  deriving DecidableEq, Repr

/-- The drain loop of `Process::handleInput` (`src/rct/Process.cpp`), driven
by the outcomes of the successive `::write` calls.  On entry the socket is
unregistered.  While the queue is non-empty: write the front buffer from
`mStdInIndex` on; a `-1` return registers the fd for write-readiness and
breaks; a write of exactly the wanted count pops the front buffer and resets
the index; a shorter write advances the index and retries.  Returns the
remaining queue, the index, and whether the fd was (re-)registered for
write-readiness. -/
def handleInput (results : List WriteResult) (queue : List (List Nat))
    (index : Nat) : List (List Nat) × Nat × Bool :=
  match results, queue with
  | _, [] => ([], index, false)
  | [], q => (q, index, false)
  | WriteResult.eagain :: _, q => (q, index, true)
  | WriteResult.wrote w :: rs, front :: rest =>
      if w = front.length - index then handleInput rs rest 0
      else handleInput rs (front :: rest) (index + w)

/-- Validity of a write-outcome sequence against a queue: a successful write
never reports more bytes than were asked for (`::write` returns at most its
count). -/
def validWrites : List WriteResult → List (List Nat) → Nat → Prop
  | _, [], _ => True
  | [], _, _ => True
  | WriteResult.eagain :: _, _, _ => True
  | WriteResult.wrote w :: rs, front :: rest, index =>
      w ≤ front.length - index ∧
      (if w = front.length - index then validWrites rs rest 0
       else validWrites rs (front :: rest) (index + w))

/-- Method `Process::write(data)` (`src/rct/Process.cpp`): when the data is non-empty
and the stdin write end is open, append the data to `mStdInBuffer` and run
`handleInput` directly.  Returns the queue handed to `handleInput` and
whether a direct write was attempted. -/
def processWrite (stdinOpen : Bool) (data : List Nat)
    (queue : List (List Nat)) : List (List Nat) × Bool :=
  if data ≠ [] ∧ stdinOpen then (queue ++ [data], true) else (queue, false)

/-! ### Process::findCommand -/

/-- Probe loop of `Process::findCommand`: for each `PATH` entry in order,
resolve the command against the entry (`Path::resolved` with `RealPath`, not
under `src/`, modelled as an oracle returning `none` when resolution fails)
and accept the first resolved path that passes `access(_, R_OK | X_OK)`
(the `accessOK` oracle). -/
def probePaths (resolve : List Char → List Char → Option (List Char))
    (accessOK : List Char → Bool) (command : List Char) :
    List (List Char) → List Char
  | [] => []
  | dir :: dirs =>
      match resolve command dir with
      | some ret =>
          if accessOK ret then ret else probePaths resolve accessOK command dirs
      | none => probePaths resolve accessOK command dirs

/-- Method `Process::findCommand` (`src/rct/Process.cpp`): an empty command or one
beginning with `'/'` is returned as is; otherwise the colon-split entries of
`PATH` (`none` when the variable is unset) are probed in order; an empty path
is returned when nothing qualifies. -/
def findCommand (resolve : List Char → List Char → Option (List Char))
    (accessOK : List Char → Bool) (pathVar : Option (List (List Char)))
    (command : List Char) : List Char :=
  match command with
  | [] => []
  | c :: _ =>
      if c = '/' then command
      else
        match pathVar with
        | none => []
        | some paths => probePaths resolve accessOK command paths

/-- A `PATH` entry qualifies for a command when the command resolves against
it and the resolved real path is readable and executable. -/
def qualifies (resolve : List Char → List Char → Option (List Char))
    (accessOK : List Char → Bool) (command dir : List Char) : Prop :=
  ∃ r, resolve command dir = some r ∧ accessOK r = true

/-- The command-resolution prefix of `Process::startInternal`
(`src/rct/Process.cpp`): when `findCommand` comes back empty, set
`mErrorString = "Command not found"` and return `Error`; otherwise proceed
with the resolved command.  `Except.error` carries `mErrorString` for the
`Error` return. -/
def startInternalResolve (resolve : List Char → List Char → Option (List Char))
    (accessOK : List Char → Bool) (pathVar : Option (List (List Char)))
    (command : List Char) : Except String (List Char) :=
  let cmd := findCommand resolve accessOK pathVar command
  if cmd.isEmpty then Except.error "Command not found" else Except.ok cmd

/-! ### The pid lifecycle -/

/-- Lifecycle phase of a `Process` (ghost state for the pid invariant):
`initial` before any spawn, `running` after a successful fork, `failedSpawn`
after a failed fork, `reaped` after `finish`. -/
inductive Phase where
  | initial
  | running
  | failedSpawn
  | reaped
  deriving DecidableEq, Repr

/-- The pid-relevant state of a `Process`: the `mPid` field and the lifecycle
phase. -/
structure ProcLife where
  pid : Int
  phase : Phase
  deriving DecidableEq, Repr

/-- Constructor `Process::Process`: `mPid` starts at `-1`. -/
def procInit : ProcLife := ⟨-1, Phase.initial⟩

/-- The operations that touch `mPid`: `startInternal` (with the fork result:
`none` when `::fork()` returned `-1`, `some p` for the child pid seen by the
parent), `finish`, and `stop`. -/
inductive ProcOp where
  | startOp (forkResult : Option Nat)
  | finishOp (code : Int)
  | stopOp
  deriving DecidableEq, Repr

/-- Effect of one operation on `mPid` (`src/rct/Process.cpp`): `startInternal`
assigns `mPid = ::fork()`, so a failed fork leaves `-1` and a successful one
stores the child pid; `finish` resets `mPid` to `-1`; `stop` only sends
`SIGTERM` and does not touch `mPid`. -/
def applyOp (s : ProcLife) : ProcOp → ProcLife
  | ProcOp.startOp none => ⟨-1, Phase.failedSpawn⟩
  | ProcOp.startOp (some p) => ⟨Int.ofNat p, Phase.running⟩
  | ProcOp.finishOp _ => ⟨-1, Phase.reaped⟩
  | ProcOp.stopOp => s

/-- Run a sequence of lifecycle operations from a state. -/
def runOps (s : ProcLife) : List ProcOp → ProcLife
  | [] => s
  | op :: ops => runOps (applyOp s op) ops

/-- Validity of one operation: a spawn only happens while no child is running
(`Process::~Process` and the sync path assert `mPid == -1`), and a successful
`::fork()` returns a positive child pid. -/
def validPOp (s : ProcLife) : ProcOp → Prop
  | ProcOp.startOp f => s.phase ≠ Phase.running ∧ ∀ p, f = some p → 0 < p
  | ProcOp.finishOp _ => True
  | ProcOp.stopOp => True

/-- Validity of an operation sequence. -/
def validPSeq (s : ProcLife) : List ProcOp → Prop
  | [] => True
  | op :: ops => validPOp s op ∧ validPSeq (applyOp s op) ops

/-! ### Process::readAllStdOut / Process::readAllStdErr -/

/-- Method `Process::readAllStdOut` (`src/rct/Process.cpp`): swap the accumulated
buffer with an empty string and reset `mStdOutIndex` to `0`.  Returns the
returned string, the new buffer, and the new index. -/
def readAllStdOut (buffer : List Nat) (index : Nat) :
    List Nat × List Nat × Nat :=
  (buffer, [], 0)

/-- Method `Process::readAllStdErr` (`src/rct/Process.cpp`): identical to
`readAllStdOut` on the stderr buffer and `mStdErrIndex`. -/
def readAllStdErr (buffer : List Nat) (index : Nat) :
    List Nat × List Nat × Nat :=
  (buffer, [], 0)

/-! ## Theorems -/

theorem bufferSize_eq_length_flat (buffers : List (List Nat)) :
    bufferSize buffers = (flat buffers).length := by
  simp [bufferSize, flat]

theorem bufferRead_fst (buffers : List (List Nat)) (size : Nat) :
    (bufferRead buffers size).1 = (flat buffers).take size := by
  induction buffers generalizing size with
  | nil => cases size <;> simp [bufferRead, flat]
  | cons b rest ih =>
      cases size with
      | zero => simp [bufferRead, flat]
      | succ n =>
          by_cases h : b.length ≤ n + 1
          · simp only [flat] at ih
            simp only [bufferRead, if_pos h, flat, List.flatten_cons]
            rw [List.take_append_eq_append_take, List.take_of_length_le h, ih]
          · simp only [bufferRead, if_neg h, flat, List.flatten_cons]
            rw [List.take_append_of_le_length (by omega : n + 1 ≤ b.length)]

theorem bufferRead_snd (buffers : List (List Nat)) (size : Nat) :
    flat (bufferRead buffers size).2 = (flat buffers).drop size := by
  induction buffers generalizing size with
  | nil => cases size <;> simp [bufferRead, flat]
  | cons b rest ih =>
      cases size with
      | zero => simp [bufferRead, flat]
      | succ n =>
          by_cases h : b.length ≤ n + 1
          · simp only [flat] at ih
            simp only [bufferRead, if_pos h, flat, List.flatten_cons]
            rw [List.drop_append_eq_append_drop, List.drop_eq_nil_of_le h,
              List.nil_append, ih]
          · simp only [bufferRead, if_neg h, flat, List.flatten_cons]
            rw [List.drop_append_of_le_length (by omega : n + 1 ≤ b.length)]

/-- Claim C1: the `Connection` decodes the inbound stream as a little-endian
u32 length followed by exactly that many payload bytes whose first byte is the
message id.  While no frame is in progress (`pendingRead = 0`) and at least 4
bytes are queued, exactly 4 bytes are consumed as the header and `pendingRead`
is set to the parsed length (the loop then pauses if the body is not complete
yet); when at least `pendingRead` bytes are queued, exactly `pendingRead`
bytes are consumed, `pendingRead` is reset to `0`, and the decoded message is
delivered as `Finished` when its id equals the distinguished finish id and as
`NewMessage` otherwise. -/
theorem conn_framing_decode (finishId : Nat) (s : ConnState) :
    (s.pendingRead = 0 → 4 ≤ (flat s.buffers).length →
      (flat s.buffers).length - 4 < leU32 ((flat s.buffers).take 4) →
      flat (connStep finishId s).1.buffers = (flat s.buffers).drop 4 ∧
      (connStep finishId s).1.pendingRead = leU32 ((flat s.buffers).take 4) ∧
      (connStep finishId s).2.1 = none) ∧
    (s.pendingRead = 0 → 4 ≤ (flat s.buffers).length →
      leU32 ((flat s.buffers).take 4) ≤ (flat s.buffers).length - 4 →
      flat (connStep finishId s).1.buffers
          = ((flat s.buffers).drop 4).drop (leU32 ((flat s.buffers).take 4)) ∧
      (connStep finishId s).1.pendingRead = 0 ∧
      (connStep finishId s).2.1
          = deliver finishId
              (((flat s.buffers).drop 4).take (leU32 ((flat s.buffers).take 4)))) ∧
    (0 < s.pendingRead → s.pendingRead ≤ (flat s.buffers).length →
      flat (connStep finishId s).1.buffers = (flat s.buffers).drop s.pendingRead ∧
      (connStep finishId s).1.pendingRead = 0 ∧
      (connStep finishId s).2.1
          = deliver finishId ((flat s.buffers).take s.pendingRead)) ∧
    (∀ id rest, deliver finishId (id :: rest)
        = some (if id = finishId then ConnEvent.finished
                else ConnEvent.newMessage (id :: rest))) := by
  have hav := bufferSize_eq_length_flat s.buffers
  refine ⟨?_, ?_, ?_, ?_⟩
  · intro hpr h4 hlt
    have h0 : ¬ bufferSize s.buffers = 0 := by omega
    have h4' : ¬ bufferSize s.buffers < 4 := by omega
    have hlt' : bufferSize s.buffers - 4 < leU32 ((bufferRead s.buffers 4).1) := by
      rw [bufferRead_fst]; omega
    have e : connStep finishId s
        = ({ buffers := (bufferRead s.buffers 4).2,
             pendingRead := leU32 (bufferRead s.buffers 4).1 }, none, false) := by
      simp only [connStep]
      rw [if_neg h0, if_pos hpr, if_neg h4', if_pos hlt']
    rw [e]
    exact ⟨bufferRead_snd _ _, congrArg leU32 (bufferRead_fst _ _), rfl⟩
  · intro hpr h4 hle
    have h0 : ¬ bufferSize s.buffers = 0 := by omega
    have h4' : ¬ bufferSize s.buffers < 4 := by omega
    have hle' : ¬ bufferSize s.buffers - 4 < leU32 ((bufferRead s.buffers 4).1) := by
      rw [bufferRead_fst]; omega
    have e : connStep finishId s
        = ({ buffers := (bufferRead (bufferRead s.buffers 4).2
                           (leU32 (bufferRead s.buffers 4).1)).2,
             pendingRead := 0 },
           deliver finishId (bufferRead (bufferRead s.buffers 4).2
                               (leU32 (bufferRead s.buffers 4).1)).1, true) := by
      simp only [connStep]
      rw [if_neg h0, if_pos hpr, if_neg h4', if_neg hle']
    rw [e]
    refine ⟨?_, rfl, ?_⟩
    · show flat (bufferRead (bufferRead s.buffers 4).2
              (leU32 (bufferRead s.buffers 4).1)).2
          = ((flat s.buffers).drop 4).drop (leU32 ((flat s.buffers).take 4))
      rw [bufferRead_snd (bufferRead s.buffers 4).2, bufferRead_snd s.buffers 4,
        bufferRead_fst s.buffers 4]
    · show deliver finishId (bufferRead (bufferRead s.buffers 4).2
              (leU32 (bufferRead s.buffers 4).1)).1
          = deliver finishId
              (((flat s.buffers).drop 4).take (leU32 ((flat s.buffers).take 4)))
      rw [bufferRead_fst (bufferRead s.buffers 4).2, bufferRead_snd s.buffers 4,
        bufferRead_fst s.buffers 4]
  · intro hpos hle
    have h0 : ¬ bufferSize s.buffers = 0 := by omega
    have hpr : ¬ s.pendingRead = 0 := by omega
    have hle' : ¬ bufferSize s.buffers < s.pendingRead := by omega
    have e : connStep finishId s
        = ({ buffers := (bufferRead s.buffers s.pendingRead).2, pendingRead := 0 },
           deliver finishId (bufferRead s.buffers s.pendingRead).1, true) := by
      simp only [connStep]
      rw [if_neg h0, if_neg hpr, if_neg hle']
    rw [e]
    exact ⟨bufferRead_snd _ _, rfl, congrArg (deliver finishId) (bufferRead_fst _ _)⟩
  · intro id rest
    rfl

/-- Witness for C1 at a concrete stream: the 9 queued bytes
`[5, 0, 0, 0, 13, 1, 2, 3, 4]` (header `5`, id `13`, body `[1, 2, 3, 4]`)
decode in one step, consuming the 4 header bytes and the 5 payload bytes. -/
theorem conn_framing_decode_witness :
    flat (connStep 13 ⟨[[5, 0, 0, 0], [13, 1, 2, 3, 4]], 0⟩).1.buffers
        = ((flat [[5, 0, 0, 0], [13, 1, 2, 3, 4]]).drop 4).drop
            (leU32 ((flat [[5, 0, 0, 0], [13, 1, 2, 3, 4]]).take 4)) ∧
    (connStep 13 ⟨[[5, 0, 0, 0], [13, 1, 2, 3, 4]], 0⟩).1.pendingRead = 0 ∧
    (connStep 13 ⟨[[5, 0, 0, 0], [13, 1, 2, 3, 4]], 0⟩).2.1
        = deliver 13 (((flat [[5, 0, 0, 0], [13, 1, 2, 3, 4]]).drop 4).take
            (leU32 ((flat [[5, 0, 0, 0], [13, 1, 2, 3, 4]]).take 4))) :=
  (conn_framing_decode 13 ⟨[[5, 0, 0, 0], [13, 1, 2, 3, 4]], 0⟩).2.1
    rfl (by decide) (by decide)

theorem reapLoop_fst (wait : Nat → WaitStatus) (registry : List Nat) :
    (reapLoop wait registry).1
      = registry.filter fun pid => (reapCode (wait pid)).isNone := by
  induction registry with
  | nil => rfl
  | cons pid rest ih =>
      cases hw : reapCode (wait pid) with
      | none => simp [reapLoop, hw, List.filter_cons, ih]
      | some code => simp [reapLoop, hw, List.filter_cons, ih]

theorem reapLoop_snd (wait : Nat → WaitStatus) (registry : List Nat) :
    (reapLoop wait registry).2
      = (registry.map fun pid =>
          match reapCode (wait pid) with
          | none => [ThreadAct.waitpidCall pid]
          | some code => [ThreadAct.waitpidCall pid, ThreadAct.unlockAct,
                          ThreadAct.finishCall pid code, ThreadAct.lockAct]).flatten := by
  induction registry with
  | nil => rfl
  | cons pid rest ih =>
      cases hw : reapCode (wait pid) with
      | none => simp [reapLoop, hw, ih]
      | some code => simp [reapLoop, hw, ih]

/-- Claim C2: for every byte read from the signal pipe, a `'c'` byte makes the
supervisor thread walk the registry calling `waitpid(pid, WNOHANG)` on each
live pid; each successfully waited pid is removed, the registry mutex is
unlocked, `process.finish(code)` is called with the exit status (or `-1` when
the child did not exit normally), and the mutex is re-locked; entries with no
matching child stay; an `'s'` byte makes the thread exit. -/
theorem process_thread_reaping (wait : Nat → WaitStatus) (registry : List Nat) :
    handleSignalByte wait registry 's' = ThreadStep.exitThread ∧
    handleSignalByte wait registry 'c'
      = ThreadStep.continueThread
          (registry.filter fun pid => (reapCode (wait pid)).isNone)
          ((registry.map fun pid =>
              match reapCode (wait pid) with
              | none => [ThreadAct.waitpidCall pid]
              | some code => [ThreadAct.waitpidCall pid, ThreadAct.unlockAct,
                              ThreadAct.finishCall pid code, ThreadAct.lockAct]).flatten) ∧
    (∀ status, reapCode (WaitStatus.exited status) = some (Int.ofNat status)) ∧
    reapCode WaitStatus.other = some (-1) ∧
    reapCode WaitStatus.noChange = none := by
  refine ⟨rfl, ?_, fun status => rfl, rfl, rfl⟩
  show (if ('c' : Char) = 's' then ThreadStep.exitThread
        else ThreadStep.continueThread (reapLoop wait registry).1
               (reapLoop wait registry).2) = _
  rw [if_neg (by decide : ¬ ('c' : Char) = 's'), reapLoop_fst, reapLoop_snd]

theorem runConn_spec (ops : List ConnOp) : ∀ pendingWrite : Nat,
    validOps pendingWrite ops →
    (ops.map ackedBytes).sum ≤ pendingWrite + (ops.map sentBytes).sum ∧
    runConn pendingWrite ops
      = pendingWrite + (ops.map sentBytes).sum - (ops.map ackedBytes).sum := by
  induction ops with
  | nil => intro pw _; simp [runConn]
  | cons op ops ih =>
      intro pw hv
      cases op with
      | send id message =>
          have hv' : validOps (sendData true pw id message).1 ops := hv
          obtain ⟨h1, h2⟩ := ih _ hv'
          have hs : (sendData true pw id message).1
              = pw + (4 + (message.length + 1)) := by simp [sendData]
          rw [hs] at h1 h2
          simp only [runConn, List.map_cons, List.sum_cons, sentBytes, ackedBytes,
            List.length_cons]
          rw [hs]
          exact ⟨by omega, by rw [h2]; omega⟩
      | ack b =>
          obtain ⟨hb, hv'⟩ := hv
          obtain ⟨h1, h2⟩ := ih _ hv'
          simp only [runConn, List.map_cons, List.sum_cons, sentBytes, ackedBytes,
            onDataWritten] at h1 h2 ⊢
          constructor
          · omega
          · rw [h2]; omega

/-- Claim C3: `mPendingWrite` always equals the total bytes queued by sends
(4-byte header plus id-and-body for each accepted send) minus the total bytes
acknowledged; each write-acknowledged notification decrements it by the
acknowledged count, and `SendFinished` is emitted exactly when it reaches
zero. -/
theorem pending_write_invariant (ops : List ConnOp) (h : validOps 0 ops) :
    (ops.map ackedBytes).sum ≤ (ops.map sentBytes).sum ∧
    runConn 0 ops = (ops.map sentBytes).sum - (ops.map ackedBytes).sum ∧
    ∀ pendingWrite bytes : Nat,
      (onDataWritten pendingWrite bytes).1 = pendingWrite - bytes ∧
      ((onDataWritten pendingWrite bytes).2 = true ↔ pendingWrite - bytes = 0) := by
  obtain ⟨h1, h2⟩ := runConn_spec ops 0 h
  refine ⟨by omega, by rw [h2]; omega, fun pw bytes => ⟨rfl, ?_⟩⟩
  simp [onDataWritten]

/-- Witness for C3: one send of id `7` with a 3-byte body queues 8 bytes; a
single acknowledgement of all 8 bytes brings `mPendingWrite` back to zero. -/
theorem pending_write_invariant_witness :
    (([ConnOp.send 7 [1, 2, 3], ConnOp.ack 8]).map ackedBytes).sum
        ≤ (([ConnOp.send 7 [1, 2, 3], ConnOp.ack 8]).map sentBytes).sum ∧
    runConn 0 [ConnOp.send 7 [1, 2, 3], ConnOp.ack 8]
        = (([ConnOp.send 7 [1, 2, 3], ConnOp.ack 8]).map sentBytes).sum
            - (([ConnOp.send 7 [1, 2, 3], ConnOp.ack 8]).map ackedBytes).sum ∧
    ∀ pendingWrite bytes : Nat,
      (onDataWritten pendingWrite bytes).1 = pendingWrite - bytes ∧
      ((onDataWritten pendingWrite bytes).2 = true ↔ pendingWrite - bytes = 0) :=
  pending_write_invariant [ConnOp.send 7 [1, 2, 3], ConnOp.ack 8]
    ⟨by decide, trivial⟩

/-- Claim C8: `Connection::sendData` on a socket that is not connected fails
(returns `false`) and queues no bytes: `mPendingWrite` is unchanged. -/
theorem send_disconnected_rejected (pendingWrite id : Nat) (message : List Nat) :
    sendData false pendingWrite id message = (pendingWrite, false) := rfl

/-- Claim C4: `Process::finish(code)` holds the process mutex while it clears
the pid, records the return code, and (in `Async` mode) drains the remaining
stdout/stderr and closes the stdio descriptors; the `finished` signal is
emitted only after the mutex is released.  In `Sync` mode it instead writes
exactly one byte to the sync pipe and never emits the `finished` signal
itself. -/
theorem finish_semantics (code : Int) :
    (∃ body, finishTrace PMode.Async code
        = FinishAct.lockMutex :: body
            ++ [FinishAct.unlockMutex, FinishAct.emitFinished] ∧
      FinishAct.setPid (-1) ∈ body ∧ FinishAct.setReturn code ∈ body ∧
      FinishAct.clearStdInBuffer ∈ body ∧ FinishAct.closeStdInAct ∈ body ∧
      FinishAct.drainStdOut ∈ body ∧ FinishAct.drainStdErr ∈ body ∧
      FinishAct.closeStdOutAct ∈ body ∧ FinishAct.closeStdErrAct ∈ body ∧
      FinishAct.emitFinished ∉ body) ∧
    (∃ body, finishTrace PMode.Sync code
        = FinishAct.lockMutex :: body ++ [FinishAct.unlockMutex] ∧
      FinishAct.setPid (-1) ∈ body ∧ FinishAct.setReturn code ∈ body ∧
      (∀ n, FinishAct.writeSyncPipe n ∈ body ↔ n = 1) ∧
      body.count (FinishAct.writeSyncPipe 1) = 1 ∧
      FinishAct.emitFinished ∉ finishTrace PMode.Sync code) := by
  constructor
  · refine ⟨[FinishAct.setPid (-1), FinishAct.setReturn code,
      FinishAct.clearStdInBuffer, FinishAct.closeStdInAct, FinishAct.drainStdOut,
      FinishAct.drainStdErr, FinishAct.closeStdOutAct, FinishAct.closeStdErrAct],
      rfl, ?_, ?_, ?_, ?_, ?_, ?_, ?_, ?_, ?_⟩ <;> simp
  · refine ⟨[FinishAct.setPid (-1), FinishAct.setReturn code,
      FinishAct.clearStdInBuffer, FinishAct.closeStdInAct,
      FinishAct.writeSyncPipe 1, FinishAct.closeSyncPipe],
      rfl, ?_, ?_, ?_, ?_, ?_⟩ <;> simp [finishTrace]

theorem handleOutputAppend_bounds (buffer : List Nat) (index : Nat)
    (chunk : List Nat) (hidx : index ≤ buffer.length)
    (hchunk : chunk.length ≤ BufSize) :
    (handleOutputAppend buffer index chunk).1.length ≤ MaxSize ∧
    (handleOutputAppend buffer index chunk).2.1
      ≤ (handleOutputAppend buffer index chunk).1.length := by
  have hbuf : BufSize ≤ MaxSize := by norm_num [BufSize, MaxSize]
  simp only [handleOutputAppend]
  split_ifs with h1 h2
  · exact ⟨le_trans hchunk hbuf, Nat.zero_le _⟩
  · simp only [List.length_append, List.length_drop]
    omega
  · simp only [List.length_append]
    omega

theorem handleOutputRun_bound (chunks : List (List Nat)) :
    ∀ (buffer : List Nat) (index : Nat), index ≤ buffer.length →
    buffer.length ≤ MaxSize → (∀ c ∈ chunks, c.length ≤ BufSize) →
    (handleOutputRun buffer index chunks).1.length ≤ MaxSize ∧
    (handleOutputRun buffer index chunks).2
      ≤ (handleOutputRun buffer index chunks).1.length := by
  induction chunks with
  | nil => intro buffer index hidx hb _; exact ⟨hb, hidx⟩
  | cons c cs ih =>
      intro buffer index hidx hb hc
      have hstep := handleOutputAppend_bounds buffer index c hidx
        (hc c (by simp))
      simpa only [handleOutputRun] using
        ih (handleOutputAppend buffer index c).1
          (handleOutputAppend buffer index c).2.1 hstep.2 hstep.1
          (fun d hd => hc d (by simp [hd]))

/-- Claim C5: a `Process` stdout/stderr buffer never exceeds 16 MiB across any
sequence of reads; when appending would exceed the bound, the consumed prefix
before the read index is compacted away first, and capping by compaction
loses no unread bytes (the result is exactly the unread suffix followed by
the new chunk); data is dropped (and the drop logged) only when the bound
would still be exceeded after compaction. -/
theorem output_buffer_cap :
    (∀ (buffer : List Nat) (index : Nat) (chunks : List (List Nat)),
      index ≤ buffer.length → buffer.length ≤ MaxSize →
      (∀ c ∈ chunks, c.length ≤ BufSize) →
      (handleOutputRun buffer index chunks).1.length ≤ MaxSize) ∧
    (∀ (buffer : List Nat) (index : Nat) (chunk : List Nat),
      index ≤ buffer.length →
      buffer.length + chunk.length > MaxSize →
      buffer.length + chunk.length - index ≤ MaxSize →
      handleOutputAppend buffer index chunk
        = (buffer.drop index ++ chunk, 0, false)) ∧
    (∀ (buffer : List Nat) (index : Nat) (chunk : List Nat),
      index ≤ buffer.length →
      ((handleOutputAppend buffer index chunk).2.2 = true ↔
        buffer.length + chunk.length > MaxSize ∧
        buffer.length + chunk.length - index > MaxSize)) := by
  refine ⟨?_, ?_, ?_⟩
  · intro buffer index chunks hidx hb hc
    exact (handleOutputRun_bound chunks buffer index hidx hb hc).1
  · intro buffer index chunk hidx hover hfits
    simp only [handleOutputAppend]
    rw [if_pos hover, if_neg (by omega)]
  · intro buffer index chunk hidx
    simp only [handleOutputAppend]
    split_ifs with h1 h2
    · simp [h1, h2]
    · simp only [Bool.false_eq_true, false_iff]
      omega
    · simp only [Bool.false_eq_true, false_iff]
      omega

/-- Witness for C5 at a concrete input: a fresh buffer receiving one 3-byte
chunk stays within the 16 MiB bound. -/
theorem output_buffer_cap_witness :
    (handleOutputRun [] 0 [[1, 2, 3]]).1.length ≤ MaxSize :=
  output_buffer_cap.1 [] 0 [[1, 2, 3]] (by decide) (by decide) (by decide)

theorem handleInput_registered (rs : List WriteResult) :
    ∀ (queue : List (List Nat)) (index : Nat),
    (handleInput rs queue index).2.2 = true → WriteResult.eagain ∈ rs := by
  induction rs with
  | nil =>
      intro queue index h
      cases queue <;> simp [handleInput] at h
  | cons r rs ih =>
      intro queue index h
      cases queue with
      | nil => simp [handleInput] at h
      | cons f rest =>
          cases r with
          | eagain => exact List.mem_cons_self _ _
          | wrote w =>
              by_cases hw : w = f.length - index
              · have h' : (handleInput rs rest 0).2.2 = true := by
                  simpa [handleInput, hw] using h
                exact List.mem_cons_of_mem _ (ih _ _ h')
              · have h' : (handleInput rs (f :: rest) (index + w)).2.2 = true := by
                  simpa [handleInput, hw] using h
                exact List.mem_cons_of_mem _ (ih _ _ h')

theorem handleInput_suffix (rs : List WriteResult) :
    ∀ (queue : List (List Nat)) (index : Nat),
    index ≤ (queue.headD []).length → validWrites rs queue index →
    ∃ k, (flat (handleInput rs queue index).1).drop (handleInput rs queue index).2.1
      = ((flat queue).drop index).drop k := by
  induction rs with
  | nil =>
      intro queue index _ _
      cases queue with
      | nil => exact ⟨0, by simp [handleInput, flat]⟩
      | cons f rest => exact ⟨0, by simp [handleInput]⟩
  | cons r rs ih =>
      intro queue index hidx hval
      cases queue with
      | nil => exact ⟨0, by simp [handleInput, flat]⟩
      | cons f rest =>
          simp only [List.headD_cons] at hidx
          cases r with
          | eagain => exact ⟨0, by simp [handleInput]⟩
          | wrote w =>
              have hval' : w ≤ f.length - index ∧
                  (if w = f.length - index then validWrites rs rest 0
                   else validWrites rs (f :: rest) (index + w)) := hval
              obtain ⟨hle, hv⟩ := hval'
              by_cases hw : w = f.length - index
              · rw [if_pos hw] at hv
                obtain ⟨k', hk'⟩ := ih rest 0 (Nat.zero_le _) hv
                rw [List.drop_zero] at hk'
                refine ⟨k' + (f.length - index), ?_⟩
                have e : handleInput (WriteResult.wrote w :: rs) (f :: rest) index
                    = handleInput rs rest 0 := by
                  simp [handleInput, hw]
                rw [e, hk']
                rw [show flat (f :: rest) = f ++ flat rest from rfl]
                rw [List.drop_drop]
                rw [show index + (k' + (f.length - index)) = f.length + k' by omega]
                rw [List.drop_append]
              · rw [if_neg hw] at hv
                have hidx' : index + w ≤ ((f :: rest).headD []).length := by
                  simp only [List.headD_cons]; omega
                obtain ⟨k', hk'⟩ := ih (f :: rest) (index + w) hidx' hv
                refine ⟨k' + w, ?_⟩
                have e : handleInput (WriteResult.wrote w :: rs) (f :: rest) index
                    = handleInput rs (f :: rest) (index + w) := by
                  simp [handleInput, hw]
                rw [e, hk']
                rw [List.drop_drop, List.drop_drop]
                congr 1
                omega

/-- Claim C6 as stated is refuted at a concrete input: with one two-byte
buffer queued and two successive `::write` calls each accepting one byte, the
first write is partial (1 of 2 wanted bytes), yet the drain completes without
ever registering stdin for write-readiness (the claim demands registration
whenever a write returns partial). -/
theorem stdin_partial_write_counterexample :
    (1 : Nat) < ([7, 7] : List Nat).length - 0 ∧
    handleInput [WriteResult.wrote 1, WriteResult.wrote 1] [[7, 7]] 0
      = ([], 0, false) := by decide

/-- Claim C6, amended: `Process::write` appends non-empty data to the stdin
queue and attempts a direct non-blocking write; whenever a write returns `-1`
(EAGAIN), stdin is registered for write-readiness and the drain stops — and
registration happens only through such a return; a partial write instead
advances the stdin cursor within the front buffer and is immediately retried
within the same drain; front buffers are popped exactly when fully written;
the drain only ever consumes a prefix of the pending byte stream; and when
the queue empties the fd is left unregistered. -/
theorem stdin_drain_amended :
    (∀ (data : List Nat) (queue : List (List Nat)), data ≠ [] →
      processWrite true data queue = (queue ++ [data], true)) ∧
    (∀ (rs : List WriteResult) (index : Nat),
      handleInput rs [] index = ([], index, false)) ∧
    (∀ (rs : List WriteResult) (front : List Nat) rest (index : Nat),
      handleInput (WriteResult.eagain :: rs) (front :: rest) index
        = (front :: rest, index, true)) ∧
    (∀ (rs : List WriteResult) (front : List Nat) rest (index w : Nat),
      w = front.length - index →
      handleInput (WriteResult.wrote w :: rs) (front :: rest) index
        = handleInput rs rest 0) ∧
    (∀ (rs : List WriteResult) (front : List Nat) rest (index w : Nat),
      w ≠ front.length - index →
      handleInput (WriteResult.wrote w :: rs) (front :: rest) index
        = handleInput rs (front :: rest) (index + w)) ∧
    (∀ (rs : List WriteResult) (queue : List (List Nat)) (index : Nat),
      (handleInput rs queue index).2.2 = true → WriteResult.eagain ∈ rs) ∧
    (∀ (rs : List WriteResult) (queue : List (List Nat)) (index : Nat),
      index ≤ (queue.headD []).length → validWrites rs queue index →
      ∃ k, (flat (handleInput rs queue index).1).drop
              (handleInput rs queue index).2.1
        = ((flat queue).drop index).drop k) := by
  refine ⟨?_, ?_, ?_, ?_, ?_, ?_, ?_⟩
  · intro data queue h
    simp [processWrite, h]
  · intro rs index
    cases rs with
    | nil => rfl
    | cons r rs' => cases r <;> rfl
  · intro rs front rest index
    rfl
  · intro rs front rest index w hw
    simp [handleInput, hw]
  · intro rs front rest index w hw
    simp [handleInput, hw]
  · exact fun rs => handleInput_registered rs
  · exact fun rs => handleInput_suffix rs

/-- Witness for the amended C6: a drain stopped by an immediate EAGAIN has an
EAGAIN among its write outcomes. -/
theorem stdin_drain_amended_witness :
    WriteResult.eagain ∈ [WriteResult.eagain] :=
  stdin_drain_amended.2.2.2.2.2.1 [WriteResult.eagain] [[1]] 0 (by decide)

theorem probePaths_eq_nil (resolve : List Char → List Char → Option (List Char))
    (accessOK : List Char → Bool) (command : List Char) :
    ∀ paths, (∀ d ∈ paths, ¬ qualifies resolve accessOK command d) →
    probePaths resolve accessOK command paths = [] := by
  intro paths
  induction paths with
  | nil => intro _; rfl
  | cons dir dirs ih =>
      intro h
      cases hr : resolve command dir with
      | none =>
          simp only [probePaths, hr]
          exact ih fun d hdm => h d (List.mem_cons_of_mem _ hdm)
      | some ret =>
          have hacc : accessOK ret = false := by
            rcases Bool.eq_false_or_eq_true (accessOK ret) with ht | hf
            · exact absurd ⟨ret, hr, ht⟩ (h dir (List.mem_cons_self _ _))
            · exact hf
          simp only [probePaths, hr, hacc, Bool.false_eq_true, if_false]
          exact ih fun d hdm => h d (List.mem_cons_of_mem _ hdm)

theorem probePaths_first (resolve : List Char → List Char → Option (List Char))
    (accessOK : List Char → Bool) (command : List Char) :
    ∀ (pre : List (List Char)) (dir : List Char) (post : List (List Char))
      (ret : List Char),
    (∀ d ∈ pre, ¬ qualifies resolve accessOK command d) →
    resolve command dir = some ret → accessOK ret = true →
    probePaths resolve accessOK command (pre ++ dir :: post) = ret := by
  intro pre
  induction pre with
  | nil =>
      intro dir post ret _ hr hacc
      simp [probePaths, hr, hacc]
  | cons d0 ds ih =>
      intro dir post ret h hr hacc
      cases hr0 : resolve command d0 with
      | none =>
          simp only [List.cons_append, probePaths, hr0]
          exact ih dir post ret (fun d hdm => h d (List.mem_cons_of_mem _ hdm))
            hr hacc
      | some r0 =>
          have hacc0 : accessOK r0 = false := by
            rcases Bool.eq_false_or_eq_true (accessOK r0) with ht | hf
            · exact absurd ⟨r0, hr0, ht⟩ (h d0 (List.mem_cons_self _ _))
            · exact hf
          simp only [List.cons_append, probePaths, hr0, hacc0,
            Bool.false_eq_true, if_false]
          exact ih dir post ret (fun d hdm => h d (List.mem_cons_of_mem _ hdm))
            hr hacc

/-- Claim C7: command resolution treats a command beginning with `'/'` as
absolute; otherwise it probes the `PATH` entries in order and accepts the
first whose resolved real path is readable and executable; when no entry
qualifies (or `PATH` is unset), the spawn fails with `CommandNotFound` (error
string `"Command not found"`, return value `Error`). -/
theorem find_command_resolution
    (resolve : List Char → List Char → Option (List Char))
    (accessOK : List Char → Bool) :
    (∀ (pathVar : Option (List (List Char))) (rest : List Char),
      findCommand resolve accessOK pathVar ('/' :: rest) = '/' :: rest) ∧
    (∀ (c : Char) (cs : List Char) (pre : List (List Char)) (dir : List Char)
       (post : List (List Char)) (ret : List Char), c ≠ '/' →
      (∀ d ∈ pre, ¬ qualifies resolve accessOK (c :: cs) d) →
      resolve (c :: cs) dir = some ret → accessOK ret = true →
      findCommand resolve accessOK (some (pre ++ dir :: post)) (c :: cs) = ret) ∧
    (∀ (c : Char) (cs : List Char) (paths : List (List Char)), c ≠ '/' →
      (∀ d ∈ paths, ¬ qualifies resolve accessOK (c :: cs) d) →
      findCommand resolve accessOK (some paths) (c :: cs) = [] ∧
      startInternalResolve resolve accessOK (some paths) (c :: cs)
        = Except.error "Command not found") ∧
    (∀ (c : Char) (cs : List Char), c ≠ '/' →
      startInternalResolve resolve accessOK none (c :: cs)
        = Except.error "Command not found") ∧
    (∀ (pathVar : Option (List (List Char))) (command : List Char),
      findCommand resolve accessOK pathVar command ≠ [] →
      startInternalResolve resolve accessOK pathVar command
        = Except.ok (findCommand resolve accessOK pathVar command)) := by
  refine ⟨?_, ?_, ?_, ?_, ?_⟩
  · intro pathVar rest
    simp [findCommand]
  · intro c cs pre dir post ret hc hpre hr hacc
    simp only [findCommand, if_neg hc]
    exact probePaths_first resolve accessOK (c :: cs) pre dir post ret hpre hr hacc
  · intro c cs paths hc hnone
    have hfind : findCommand resolve accessOK (some paths) (c :: cs) = [] := by
      simp only [findCommand, if_neg hc]
      exact probePaths_eq_nil resolve accessOK (c :: cs) paths hnone
    exact ⟨hfind, by simp [startInternalResolve, hfind]⟩
  · intro c cs hc
    simp [startInternalResolve, findCommand, hc]
  · intro pathVar command hne
    cases hcmd : findCommand resolve accessOK pathVar command with
    | nil => exact absurd hcmd hne
    | cons a as => simp [startInternalResolve, hcmd]

/-- Witness for C7 at concrete oracles: with `PATH` holding the single entry
`d`, a resolver that maps everything to the path `x`, and an access check
that always succeeds, the non-absolute command `ls` resolves to `x`. -/
theorem find_command_resolution_witness :
    findCommand (fun _ _ => some ['x']) (fun _ => true)
      (some [['d']]) ['l', 's'] = ['x'] :=
  (find_command_resolution (fun _ _ => some ['x']) (fun _ => true)).2.1
    'l' ['s'] [] ['d'] [] ['x'] (by decide) (by simp) rfl rfl

theorem applyOp_inv (s : ProcLife) (op : ProcOp)
    (hs : s.pid = -1 ↔ s.phase ≠ Phase.running) (hv : validPOp s op) :
    (applyOp s op).pid = -1 ↔ (applyOp s op).phase ≠ Phase.running := by
  cases op with
  | startOp f =>
      cases f with
      | none => simp [applyOp]
      | some p =>
          have hp : 0 < p := hv.2 p rfl
          exact iff_of_false (by show ¬ ((p : Int) = -1); omega) fun h => h rfl
  | finishOp code => simp [applyOp]
  | stopOp => exact hs

theorem runOps_inv (ops : List ProcOp) : ∀ s : ProcLife,
    (s.pid = -1 ↔ s.phase ≠ Phase.running) → validPSeq s ops →
    ((runOps s ops).pid = -1 ↔ (runOps s ops).phase ≠ Phase.running) := by
  induction ops with
  | nil => intro s hs _; exact hs
  | cons op ops ih =>
      intro s hs hv
      have hv' : validPOp s op ∧ validPSeq (applyOp s op) ops := hv
      exact ih _ (applyOp_inv s op hs hv'.1) hv'.2

/-- Claim C9: `mPid` equals `-1` exactly when the process has not been
spawned (or the spawn failed) or has been reaped: it is `-1` at construction,
becomes the child pid on a successful fork, is untouched by `stop`, and is
reset to `-1` only by `finish`. -/
theorem pid_lifecycle_invariant :
    procInit.pid = -1 ∧ procInit.phase ≠ Phase.running ∧
    (∀ ops, validPSeq procInit ops →
      ((runOps procInit ops).pid = -1 ↔
        (runOps procInit ops).phase ≠ Phase.running)) ∧
    (∀ (s : ProcLife) (p : Nat),
      applyOp s (ProcOp.startOp (some p)) = ⟨Int.ofNat p, Phase.running⟩) ∧
    (∀ (s : ProcLife) (op : ProcOp),
      (s.pid = -1 ↔ s.phase ≠ Phase.running) → validPOp s op →
      s.pid ≠ -1 → (applyOp s op).pid = -1 →
      ∃ code, op = ProcOp.finishOp code) := by
  refine ⟨rfl, by decide, ?_, fun s p => rfl, ?_⟩
  · intro ops hv
    exact runOps_inv ops procInit (by simp [procInit]) hv
  · intro s op hs hv hpid hafter
    cases op with
    | startOp f =>
        have hv' : s.phase ≠ Phase.running ∧ ∀ p, f = some p → 0 < p := hv
        exact absurd (hs.mpr hv'.1) hpid
    | finishOp code => exact ⟨code, rfl⟩
    | stopOp => exact absurd hafter hpid

/-- Witness for C9: spawning child pid 42 and then reaping it keeps the
pid/phase correspondence. -/
theorem pid_lifecycle_invariant_witness :
    ((runOps procInit [ProcOp.startOp (some 42), ProcOp.finishOp 0]).pid = -1 ↔
     (runOps procInit [ProcOp.startOp (some 42), ProcOp.finishOp 0]).phase
        ≠ Phase.running) :=
  pid_lifecycle_invariant.2.2.1 [ProcOp.startOp (some 42), ProcOp.finishOp 0]
    ⟨⟨by decide, fun p hp => by cases hp; decide⟩, trivial, trivial⟩

/-- Claim C10: reading the captured output is destructive:
`readAllStdOut` / `readAllStdErr` return the entire accumulated buffer,
leave it empty, and reset the read index to `0`, so two consecutive calls
yield the full buffer and then the empty string. -/
theorem read_all_destructive (buffer : List Nat) (index : Nat) :
    (readAllStdOut buffer index).1 = buffer ∧
    (readAllStdOut buffer index).2.1 = [] ∧
    (readAllStdOut buffer index).2.2 = 0 ∧
    (readAllStdOut (readAllStdOut buffer index).2.1
        (readAllStdOut buffer index).2.2).1 = [] ∧
    (readAllStdErr buffer index).1 = buffer ∧
    (readAllStdErr buffer index).2.1 = [] ∧
    (readAllStdErr buffer index).2.2 = 0 ∧
    (readAllStdErr (readAllStdErr buffer index).2.1
        (readAllStdErr buffer index).2.2).1 = [] :=
  ⟨rfl, rfl, rfl, rfl, rfl, rfl, rfl, rfl⟩

end Rct
